import Mathlib

/- Shallow embedding of the dataset validation core installed by
scripts/prepare_dataset.py (the GOOD_SRC module it writes to disk):
the JSONL reader _iter_jsonl, the structural message validator
_validate_messages_struct, and the validate_or_raise driver.  The Split
Processor / Writer described by the specification (cap, diagnostics
collection) are not part of the source file and are modelled from the
spec where a claim needs them. -/

/- Parsed JSON values, as produced by json.loads.  Objects are the parsed
Python dicts, modelled as association lists queried by first match (a dict
has no duplicate keys). -/
inductive Json where
  | null
  | bool (b : Bool)
  | num (n : Int)
  | str (s : String)
  | arr (elems : List Json)
  | obj (fields : List (String × Json))

/-- Dictionary access on a parsed JSON object: combines the membership test
(k in rec) with the access rec[k]; none when the key is absent or the value
is not an object. -/
def Json.lookup : Json → String → Option Json
  | .obj fields, k => (fields.find? (fun p => p.1 == k)).map (fun p => p.2)
  | _, _ => none

/-- Test isinstance(m, dict). -/
def Json.isDict : Json → Bool
  | .obj _ => true
  | _ => false

/-- Reasons carried by the ValueError messages _validate_messages_struct
raises (the path and line number are added by the raise site). -/
inductive Reason where
  | missingOrInvalidMessages
  | messageNotObject
  | missingRoleOrContent
  | roleOrContentNotString
  | requiredRoleNotFound (role : String)
deriving DecidableEq

/-- REQUIRED_ROLES = ("user", "assistant") from the source. -/
def REQUIRED_ROLES : List String := ["user", "assistant"]

/-- Body of the per-message loop of _validate_messages_struct, for one
message m: isinstance(m, dict) check, then presence of the role and content
keys, then their string types, returning the role added to roles_present.
In Python a non-dict record makes the membership test itself fail; every
failing check raises, short-circuiting the rest. -/
def checkMessage (m : Json) : Except Reason String :=
  if m.isDict then
    match Json.lookup m "role", Json.lookup m "content" with
    | some (Json.str r), some (Json.str _) => Except.ok r
    | some _, some _ => Except.error Reason.roleOrContentNotString
    | _, _ => Except.error Reason.missingRoleOrContent
  else Except.error Reason.messageNotObject

/-- Loop of _validate_messages_struct over rec["messages"], collecting
roles_present in encounter order; raises (returns the error of) the first
message that fails its checks. -/
def checkMessages : List Json → Except Reason (List String)
  | [] => Except.ok []
  | m :: rest =>
    match checkMessage m with
    | Except.error e => Except.error e
    | Except.ok r =>
      match checkMessages rest with
      | Except.ok roles => Except.ok (r :: roles)
      | Except.error e => Except.error e

/-- Final loop of _validate_messages_struct: every role of REQUIRED_ROLES
must occur in roles_present; raises naming the first missing role. -/
def checkRequiredRoles : List String → List String → Except Reason Unit
  | [], _ => Except.ok ()
  | r :: rs, present =>
    if r ∈ present then checkRequiredRoles rs present
    else Except.error (Reason.requiredRoleNotFound r)

/-- Error raised by one _validate_messages_struct call: either one of its
own ValueError checks (the reason, formatted with path and line at the
raise site), or the bare TypeError that the membership test
(messages not in rec) or the subscript rec[the messages key] raises on a
non-dict record — that exception carries no file identity, no line number
and no reason text of the validator. -/
inductive VerdictError where
  | valueError (reason : Reason)
  | typeError

/-- Python substring test: the string messages occurs in s (splitOn yields
one part more than the number of occurrences). -/
def containsMessages (s : String) : Bool :=
  decide (2 ≤ (s.splitOn "messages").length)

/-- Python equality of one parsed JSON element with the string messages:
only an equal string compares equal (list membership uses this test). -/
def eqStrMessages : Json → Bool
  | Json.str s => s == "messages"
  | _ => false

/-- Checks 1 to 4 of _validate_messages_struct on a dict record, the only
case where the membership test cannot raise TypeError: missing key or
non-list value, then the per-message loop, then the required-role loop. -/
def checkRecord (fields : List (String × Json)) : Except Reason Unit :=
  match Json.lookup (Json.obj fields) "messages" with
  | some (Json.arr msgs) =>
    match checkMessages msgs with
    | Except.error e => Except.error e
    | Except.ok present => checkRequiredRoles REQUIRED_ROLES present
  | _ => Except.error Reason.missingOrInvalidMessages

/-- Embeds _validate_messages_struct rec, per runtime type of rec.  The
first check is (messages not in rec) or not isinstance(rec[key], list):
on a dict it runs checks 1 to 4; on None, a boolean or a number the
membership test itself raises a bare TypeError (not iterable); on a string
the membership test is a substring test and on a list an element-equality
test, and when it succeeds the subscript raises TypeError (indices must be
integers), otherwise the short-circuit raises the check-1 ValueError. -/
def validate_messages_struct (rec : Json) : Except VerdictError Unit :=
  match rec with
  | Json.obj fields =>
    match checkRecord fields with
    | Except.ok u => Except.ok u
    | Except.error e => Except.error (VerdictError.valueError e)
  | Json.str s =>
    if containsMessages s then Except.error VerdictError.typeError
    else Except.error (VerdictError.valueError Reason.missingOrInvalidMessages)
  | Json.arr elems =>
    if elems.any eqStrMessages then Except.error VerdictError.typeError
    else Except.error (VerdictError.valueError Reason.missingOrInvalidMessages)
  | _ => Except.error VerdictError.typeError

/-- Records accepted by the structural validator. -/
def acceptable (rec : Json) : Bool :=
  match validate_messages_struct rec with
  | Except.ok _ => true
  | Except.error _ => false

/- ------------------------------------------------------------------ -/
/- The Record Reader: _iter_jsonl.                                     -/
/- ------------------------------------------------------------------ -/

/-- Physical line of the input file, abstracted at the json.loads boundary:
a line whose strip() is empty, a line that parses to a JSON value, or a
line on which json.loads raises JSONDecodeError with the given
diagnostic text. -/
inductive RawLine where
  | blank
  | parsed (v : Json)
  | malformed (diag : String)

/-- Data of the ValueError raised by _iter_jsonl on a malformed line:
the file identity, the 1-based physical line number, and the underlying
json.JSONDecodeError diagnostic. -/
structure ParseError where
  path : String
  lineNo : Nat
  diag : String

/-- Loop of _iter_jsonl from physical line number i (enumerate(f, 1)):
skips lines whose strip() is empty, yields (i, json.loads(line)) pairs, and
raises on the first malformed line. -/
def iterJsonlFrom (path : String) : Nat → List RawLine → Except ParseError (List (Nat × Json))
  | _, [] => Except.ok []
  | i, RawLine.blank :: rest => iterJsonlFrom path (i + 1) rest
  | i, RawLine.parsed v :: rest =>
    match iterJsonlFrom path (i + 1) rest with
    | Except.ok pairs => Except.ok ((i, v) :: pairs)
    | Except.error e => Except.error e
  | i, RawLine.malformed d :: _ => Except.error ⟨path, i, d⟩

/-- Embeds _iter_jsonl path: the sequence of (1-based line number, record)
pairs, or the ParseError of the first malformed line. -/
def _iter_jsonl (path : String) (lines : List RawLine) : Except ParseError (List (Nat × Json)) :=
  iterJsonlFrom path 1 lines

/- ------------------------------------------------------------------ -/
/- The driver: validate_or_raise.                                      -/
/- ------------------------------------------------------------------ -/

/-- Failures validate_or_raise can raise: FileNotFoundError, the reader
ParseError, a per-record structural ValueError (carrying file and line),
the bare TypeError of the membership test on a non-dict record (carrying
neither file, line nor reason), or the ValueError raised when the file
contains 0 valid records. -/
inductive VFailure where
  | fileNotFound (path : String)
  | parse (e : ParseError)
  | struct (path : String) (lineNo : Nat) (reason : Reason)
  | typeError
  | empty (path : String)

/-- Loop of validate_or_raise, consuming the lazy _iter_jsonl generator:
validation of each yielded record is interleaved with reading, so a
structural failure on an earlier line is raised before a parse error on a
later line; count counts validated records and i is the physical line
number of the next line. -/
def validateLoop (path : String) : Nat → Nat → List RawLine → Except VFailure Nat
  | count, _, [] =>
    if count = 0 then Except.error (VFailure.empty path) else Except.ok count
  | count, i, RawLine.blank :: rest => validateLoop path count (i + 1) rest
  | _, i, RawLine.malformed d :: _ => Except.error (VFailure.parse ⟨path, i, d⟩)
  | count, i, RawLine.parsed v :: rest =>
    match validate_messages_struct v with
    | Except.error (VerdictError.valueError r) => Except.error (VFailure.struct path i r)
    | Except.error VerdictError.typeError => Except.error VFailure.typeError
    | Except.ok _ => validateLoop path (count + 1) (i + 1) rest

/-- Extension test of validate_or_raise: p.suffix.lower() in (".jsonl", ".json").
The source computes the test and does nothing with it (the branch body
is pass). -/
def suffixRecognized (path : String) : Bool :=
  let name := (path.splitOn "/").getLastD ""
  let parts := name.splitOn "."
  let suffix := if parts.length ≤ 1 then "" else "." ++ parts.getLastD ""
  suffix.toLower == ".jsonl" || suffix.toLower == ".json"

/-- Embeds validate_or_raise: the file content is given as the physical
lines when the file exists; raises FileNotFoundError otherwise, then runs
the validation loop; the unrecognized-extension branch is a no-op. -/
def validate_or_raise (path : String) (content : Option (List RawLine)) : Except VFailure Nat :=
  match content with
  | none => Except.error (VFailure.fileNotFound path)
  | some lines =>
    let _recognized := suffixRecognized path
    validateLoop path 0 1 lines

/- ------------------------------------------------------------------ -/
/- Split Processor, modelled from the spec.                            -/
/- ------------------------------------------------------------------ -/

/-- Modelled from the spec: the SplitResult of section 3 — the ordered
sequence of accepted records and the ordered (line number, reason)
rejection diagnostics of one split.  The Split Processor, cap and Writer
of sections 4.4 and 2 are repository components absent from
scripts/prepare_dataset.py, which only counts and raises. -/
structure SplitResult where
  accepted : List Json
  rejectedDiags : List (Nat × VerdictError)

/-- Modelled from the spec: whether the accepted count has reached the cap;
a cap of unset (none) means no limit. -/
def capReached (cap : Option Nat) (acceptedCount : Nat) : Bool :=
  match cap with
  | none => false
  | some k => decide (k ≤ acceptedCount)

/-- Modelled from the spec: the Split Processor loop of section 4.4 —
iterates the Reader pairs in line order; on a rejected record appends a
diagnostic and continues; on an accepted record appends the record; ceases
reading further lines once the accepted count reaches the cap. -/
def processPairs (cap : Option Nat) : Nat → List (Nat × Json) → SplitResult
  | _, [] => ⟨[], []⟩
  | acc, (i, rec) :: rest =>
    if capReached cap acc then ⟨[], []⟩
    else
      match validate_messages_struct rec with
      | Except.ok _ =>
        let res := processPairs cap (acc + 1) rest
        ⟨rec :: res.accepted, res.rejectedDiags⟩
      | Except.error e =>
        let res := processPairs cap acc rest
        ⟨res.accepted, (i, e) :: res.rejectedDiags⟩

/-- Modelled from the spec: one split processed from its Reader pairs with
an optional cap. -/
def processSplit (cap : Option Nat) (pairs : List (Nat × Json)) : SplitResult :=
  processPairs cap 0 pairs

/-- Number of acceptable records among the Reader pairs. -/
def countAcceptable (pairs : List (Nat × Json)) : Nat :=
  ((pairs.map Prod.snd).filter acceptable).length

/-- Modelled from the spec: the Writer emits one record per line, so
re-reading its output yields the accepted records numbered from line 1. -/
def numberFrom : Nat → List Json → List (Nat × Json)
  | _, [] => []
  | i, r :: rs => (i, r) :: numberFrom (i + 1) rs

/- ------------------------------------------------------------------ -/
/- Helpers for stating the claims.                                     -/
/- ------------------------------------------------------------------ -/

/-- Physical lines paired with their 1-based numbers starting at i. -/
def numberLinesFrom : Nat → List RawLine → List (Nat × RawLine)
  | _, [] => []
  | i, l :: ls => (i, l) :: numberLinesFrom (i + 1) ls

/-- Pair a numbered line emits: the parsed value with its number; blank and
malformed lines emit nothing. -/
def emitLine (p : Nat × RawLine) : Option (Nat × Json) :=
  match p.2 with
  | RawLine.parsed v => some (p.1, v)
  | _ => none

/-- Pairs the Reader is specified to emit: the parsed lines together with
their 1-based physical numbers. -/
def emittedPairs (lines : List RawLine) : List (Nat × Json) :=
  (numberLinesFrom 1 lines).filterMap emitLine

/-- Lines on which the validate_or_raise loop keeps going: blank lines and
parsed records the validator accepts. -/
def lineOk (l : RawLine) : Bool :=
  match l with
  | RawLine.blank => true
  | RawLine.parsed v => acceptable v
  | RawLine.malformed _ => false

/-- Lines on which json.loads succeeds or that are blank. -/
def notMalformed (l : RawLine) : Bool :=
  match l with
  | RawLine.malformed _ => false
  | _ => true

/-- Blank-line test. -/
def isBlank (l : RawLine) : Bool :=
  match l with
  | RawLine.blank => true
  | _ => false

/-- Outcome of validate_or_raise with the reported file identity erased
(every raised message embeds the path, so outcomes of distinct paths are
compared up to it). -/
inductive OutcomeKind where
  | fileNotFound
  | parse (lineNo : Nat) (diag : String)
  | struct (lineNo : Nat) (reason : Reason)
  | typeError
  | empty
  | ok (count : Nat)

/-- Erases the reported path from a validate_or_raise outcome. -/
def outcomeKind : Except VFailure Nat → OutcomeKind
  | Except.ok n => OutcomeKind.ok n
  | Except.error (VFailure.fileNotFound _) => OutcomeKind.fileNotFound
  | Except.error (VFailure.parse e) => OutcomeKind.parse e.lineNo e.diag
  | Except.error (VFailure.struct _ i r) => OutcomeKind.struct i r
  | Except.error VFailure.typeError => OutcomeKind.typeError
  | Except.error (VFailure.empty _) => OutcomeKind.empty

/- ------------------------------------------------------------------ -/
/- Concrete records used by the claims.                                -/
/- ------------------------------------------------------------------ -/

/-- The message with role user and content hi. -/
def msgUser : Json :=
  Json.obj [("role", Json.str "user"), ("content", Json.str "hi")]

/-- The message with role assistant and content yo. -/
def msgAssistant : Json :=
  Json.obj [("role", Json.str "assistant"), ("content", Json.str "yo")]

/-- The record with a lone user message (rejected: missing assistant). -/
def recMissingAssistant : Json :=
  Json.obj [("messages", Json.arr [msgUser])]

/-- The record with a user and an assistant message (accepted). -/
def recUserAssistant : Json :=
  Json.obj [("messages", Json.arr [msgUser, msgAssistant])]

/-- A message whose role is the number 1 (present but not a string). -/
def msgBadRole : Json :=
  Json.obj [("role", Json.num 1), ("content", Json.str "x")]

/-- A record whose first message has a non-string role and whose second
message is not an object. -/
def recInterleaved : Json :=
  Json.obj [("messages", Json.arr [msgBadRole, Json.str "oops"])]

/-- The user message with an extra key inside the message object. -/
def msgUserExtra : Json :=
  Json.obj [("role", Json.str "user"), ("content", Json.str "hi"), ("meta", Json.null)]

/-- A message whose role is outside the required role set. -/
def msgSystem : Json :=
  Json.obj [("role", Json.str "system"), ("content", Json.str "s")]

/-- recUserAssistant augmented with an extra top-level key, an extra key in
the user message, and an appended system message. -/
def recAugmented : Json :=
  Json.obj [("extraTop", Json.bool true),
    ("messages", Json.arr [msgUserExtra, msgAssistant, msgSystem])]

/- ------------------------------------------------------------------ -/
/- Predicates stating the spec wording (for the acceptance claims).    -/
/- ------------------------------------------------------------------ -/

/-- Statement in the words of the spec: a good message is an object with a
string role and a string content. -/
def GoodMessage (m : Json) : Prop :=
  (∃ fields, m = Json.obj fields) ∧
  (∃ r, Json.lookup m "role" = some (Json.str r)) ∧
  (∃ c, Json.lookup m "content" = some (Json.str c))

/-- The role set of the messages contains the given role. -/
def HasRole (ms : List Json) (role : String) : Prop :=
  ∃ m ∈ ms, Json.lookup m "role" = some (Json.str role)

/-- Statement in the words of the spec: the record is accepted when messages
is a list of objects, each with string role and string content, whose role
set includes both user and assistant. -/
def SpecAccepted (rec : Json) : Prop :=
  ∃ ms, Json.lookup rec "messages" = some (Json.arr ms) ∧
    (∀ m ∈ ms, GoodMessage m) ∧ HasRole ms "user" ∧ HasRole ms "assistant"

/-- Messages that agree on being objects and on their role and content
entries; extra keys and all other differences are free. -/
def mEquiv (m m' : Json) : Prop :=
  m.isDict = m'.isDict ∧
  Json.lookup m "role" = Json.lookup m' "role" ∧
  Json.lookup m "content" = Json.lookup m' "content"

/- ------------------------------------------------------------------ -/
/- Lemmas about the structural validator.                              -/
/- ------------------------------------------------------------------ -/

theorem checkMessage_ok_role (m : Json) (r : String) (h : checkMessage m = Except.ok r) :
    Json.lookup m "role" = some (Json.str r) := by
  unfold checkMessage at h
  split at h
  · split at h <;> simp_all
  · simp at h

theorem checkMessage_ok_good (m : Json) (r : String) (h : checkMessage m = Except.ok r) :
    GoodMessage m := by
  unfold checkMessage at h
  split at h
  · rename_i hdict
    split at h
    · rename_i hrole hcont
      cases m with
      | obj fields => exact ⟨⟨fields, rfl⟩, ⟨_, hrole⟩, ⟨_, hcont⟩⟩
      | null => simp [Json.isDict] at hdict
      | bool b => simp [Json.isDict] at hdict
      | num n => simp [Json.isDict] at hdict
      | str s => simp [Json.isDict] at hdict
      | arr elems => simp [Json.isDict] at hdict
    · simp at h
    · simp at h
  · simp at h

theorem good_checkMessage (m : Json) (hg : GoodMessage m) :
    ∃ r, checkMessage m = Except.ok r ∧ Json.lookup m "role" = some (Json.str r) := by
  obtain ⟨⟨fields, hm⟩, ⟨r, hrole⟩, ⟨c, hcont⟩⟩ := hg
  refine ⟨r, ?_, hrole⟩
  subst hm
  unfold checkMessage
  simp [Json.isDict, hrole, hcont]

theorem checkMessages_ok_mem (ms : List Json) (present : List String) (m : Json)
    (h : checkMessages ms = Except.ok present) (hm : m ∈ ms) :
    ∃ r, checkMessage m = Except.ok r ∧ r ∈ present := by
  induction ms generalizing present with
  | nil => cases hm
  | cons a rest ih =>
    rw [checkMessages] at h
    split at h
    · simp at h
    · rename_i r ha
      split at h
      · rename_i roles hrest
        cases h
        rcases List.mem_cons.mp hm with hma | hmr
        · exact ⟨r, by rw [hma]; exact ha, List.mem_cons_self _ _⟩
        · obtain ⟨r', hr', hp⟩ := ih _ hrest hmr
          exact ⟨r', hr', List.mem_cons_of_mem _ hp⟩
      · simp at h

theorem checkMessages_mem_ok (ms : List Json) (present : List String) (ρ : String)
    (h : checkMessages ms = Except.ok present) (hρ : ρ ∈ present) :
    ∃ m ∈ ms, checkMessage m = Except.ok ρ := by
  induction ms generalizing present with
  | nil =>
    rw [checkMessages] at h
    cases h
    cases hρ
  | cons a rest ih =>
    rw [checkMessages] at h
    split at h
    · simp at h
    · rename_i r ha
      split at h
      · rename_i roles hrest
        cases h
        rcases List.mem_cons.mp hρ with hr | hr
        · exact ⟨a, List.mem_cons_self _ _, by rw [← hr] at ha; exact ha⟩
        · obtain ⟨m, hmm, hok⟩ := ih _ hrest hr
          exact ⟨m, List.mem_cons_of_mem _ hmm, hok⟩
      · simp at h

theorem checkMessages_role_mem (ms : List Json) (present : List String) (m : Json) (ρ : String)
    (h : checkMessages ms = Except.ok present) (hm : m ∈ ms)
    (hρ : checkMessage m = Except.ok ρ) : ρ ∈ present := by
  obtain ⟨r, hr, hp⟩ := checkMessages_ok_mem ms present m h hm
  rw [hρ] at hr
  cases hr
  exact hp

theorem checkMessages_total (ms : List Json)
    (h : ∀ m ∈ ms, ∃ r, checkMessage m = Except.ok r) :
    ∃ present, checkMessages ms = Except.ok present := by
  induction ms with
  | nil => exact ⟨[], rfl⟩
  | cons a rest ih =>
    obtain ⟨r, hr⟩ := h a (List.mem_cons_self _ _)
    obtain ⟨roles, hroles⟩ := ih (fun m hm => h m (List.mem_cons_of_mem _ hm))
    exact ⟨r :: roles, by rw [checkMessages, hr, hroles]⟩

theorem checkRequiredRoles_ok_iff (rs present : List String) :
    checkRequiredRoles rs present = Except.ok () ↔ ∀ r ∈ rs, r ∈ present := by
  induction rs with
  | nil => simp [checkRequiredRoles]
  | cons a rest ih =>
    rw [checkRequiredRoles]
    by_cases ha : a ∈ present
    · simp [ha, ih]
    · simp [ha]

theorem checkRecord_ok_elim (fields : List (String × Json))
    (h : checkRecord fields = Except.ok ()) : SpecAccepted (Json.obj fields) := by
  unfold checkRecord at h
  split at h
  · rename_i msgs hms
    split at h
    · simp at h
    · rename_i present hpres
      have hreq := (checkRequiredRoles_ok_iff REQUIRED_ROLES present).mp h
      refine ⟨msgs, hms, ?_, ?_, ?_⟩
      · intro m hm
        obtain ⟨r, hr, _⟩ := checkMessages_ok_mem msgs present m hpres hm
        exact checkMessage_ok_good m r hr
      · obtain ⟨m, hm, hok⟩ := checkMessages_mem_ok msgs present "user" hpres
          (hreq "user" (by simp [REQUIRED_ROLES]))
        exact ⟨m, hm, checkMessage_ok_role m "user" hok⟩
      · obtain ⟨m, hm, hok⟩ := checkMessages_mem_ok msgs present "assistant" hpres
          (hreq "assistant" (by simp [REQUIRED_ROLES]))
        exact ⟨m, hm, checkMessage_ok_role m "assistant" hok⟩
  · simp at h

theorem checkRecord_ok_intro (fields : List (String × Json))
    (h : SpecAccepted (Json.obj fields)) : checkRecord fields = Except.ok () := by
  obtain ⟨ms, hms, hgood, hu, ha⟩ := h
  obtain ⟨present, hpres⟩ := checkMessages_total ms
    (fun m hm => (good_checkMessage m (hgood m hm)).imp (fun r hr => hr.1))
  unfold checkRecord
  rw [hms]
  dsimp only
  rw [hpres]
  refine (checkRequiredRoles_ok_iff REQUIRED_ROLES present).mpr ?_
  intro r hr
  have hrole : HasRole ms r := by
    rcases (by simpa [REQUIRED_ROLES] using hr : r = "user" ∨ r = "assistant") with h1 | h1
    · rw [h1]; exact hu
    · rw [h1]; exact ha
  obtain ⟨m, hm, hlook⟩ := hrole
  obtain ⟨r', hok, hlook'⟩ := good_checkMessage m (hgood m hm)
  rw [hlook] at hlook'
  cases hlook'
  exact checkMessages_role_mem ms present m r hpres hm hok

theorem lookup_some_obj (rec : Json) (k : String) (v : Json)
    (h : Json.lookup rec k = some v) : ∃ fields, rec = Json.obj fields := by
  cases rec with
  | obj fields => exact ⟨fields, rfl⟩
  | null => simp [Json.lookup] at h
  | bool b => simp [Json.lookup] at h
  | num n => simp [Json.lookup] at h
  | str s => simp [Json.lookup] at h
  | arr elems => simp [Json.lookup] at h

theorem validate_obj_ok (fields : List (String × Json)) :
    validate_messages_struct (Json.obj fields) = Except.ok ()
      ↔ checkRecord fields = Except.ok () := by
  unfold validate_messages_struct
  dsimp only
  cases hcr : checkRecord fields with
  | ok u =>
    cases u
    simp
  | error e =>
    simp

theorem validate_ok_elim (rec : Json) (h : validate_messages_struct rec = Except.ok ()) :
    SpecAccepted rec := by
  cases rec with
  | obj fields => exact checkRecord_ok_elim fields ((validate_obj_ok fields).mp h)
  | null => cases h
  | bool b => cases h
  | num n => cases h
  | str s =>
    simp only [validate_messages_struct] at h
    split at h <;> cases h
  | arr elems =>
    simp only [validate_messages_struct] at h
    split at h <;> cases h

theorem validate_ok_intro (rec : Json) (h : SpecAccepted rec) :
    validate_messages_struct rec = Except.ok () := by
  obtain ⟨ms, hms, hgood, hu, ha⟩ := h
  obtain ⟨fields, rfl⟩ := lookup_some_obj rec "messages" (Json.arr ms) hms
  exact (validate_obj_ok fields).mpr
    (checkRecord_ok_intro fields ⟨ms, hms, hgood, hu, ha⟩)

/-- C6: the record with only a user message is rejected naming the missing
required role assistant; the record with a user and an assistant message is
accepted; and in general the validator accepts a record exactly when its
messages entry is a list of objects, each with string role and string
content, whose role set includes both user and assistant. -/
theorem C6_acceptance_characterization :
    validate_messages_struct recMissingAssistant
      = Except.error (VerdictError.valueError (Reason.requiredRoleNotFound "assistant"))
    ∧ validate_messages_struct recUserAssistant = Except.ok ()
    ∧ ∀ rec : Json, validate_messages_struct rec = Except.ok () ↔ SpecAccepted rec :=
  ⟨rfl, rfl, fun rec => ⟨validate_ok_elim rec, validate_ok_intro rec⟩⟩

/-- C3 counterexample: the record whose first message has a non-string role
and whose second message is not an object is rejected with the string-type
reason, which is not the non-object-element reason the claim requires. -/
theorem C3_counterexample :
    validate_messages_struct recInterleaved
      = Except.error (VerdictError.valueError Reason.roleOrContentNotString)
    ∧ Reason.roleOrContentNotString ≠ Reason.messageNotObject :=
  ⟨rfl, by decide⟩

/-- C3 (amended): the four checks are interleaved per element, not staged —
for each message in input order the validator decides object-ness, key
presence and string types of that element before looking at the next one,
so the first failing element determines the reason; in particular a record
whose first message has a non-string role is rejected with the string-type
reason whatever follows it, even a non-object second message. -/
theorem C3_per_element_checks (rest : List Json) (m : Json) (ms : List Json) (e : Reason) :
    validate_messages_struct (Json.obj [("messages", Json.arr (msgBadRole :: rest))])
      = Except.error (VerdictError.valueError Reason.roleOrContentNotString)
    ∧ (checkMessage m = Except.error e → checkMessages (m :: ms) = Except.error e) :=
  ⟨rfl, fun h => by rw [checkMessages, h]⟩

theorem acceptable_ok (rec : Json) (h : acceptable rec = true) :
    validate_messages_struct rec = Except.ok () := by
  unfold acceptable at h
  split at h
  · rename_i u heq
    cases u
    exact heq
  · cases h

theorem validateLoop_struct_error (path : String) (v : Json) (e : Reason) (post : List RawLine)
    (hv : validate_messages_struct v = Except.error (VerdictError.valueError e)) :
    ∀ (pre : List RawLine) (count i : Nat), (∀ l ∈ pre, lineOk l = true) →
      validateLoop path count i (pre ++ RawLine.parsed v :: post)
        = Except.error (VFailure.struct path (i + pre.length) e) := by
  intro pre
  induction pre with
  | nil =>
    intro count i _
    simp only [List.nil_append, validateLoop, hv, List.length_nil, Nat.add_zero]
  | cons l pre ih =>
    intro count i hpre
    have hl := hpre l (List.mem_cons_self _ _)
    have hpre' : ∀ x ∈ pre, lineOk x = true := fun x hx => hpre x (List.mem_cons_of_mem _ hx)
    have harith : i + 1 + pre.length = i + (pre.length + 1) := by omega
    cases l with
    | blank =>
      rw [List.cons_append, validateLoop, ih count (i + 1) hpre', List.length_cons, harith]
    | parsed u =>
      have hu : validate_messages_struct u = Except.ok () :=
        acceptable_ok u (by simpa [lineOk] using hl)
      rw [List.cons_append, validateLoop, hu]
      rw [ih (count + 1) (i + 1) hpre', List.length_cons, harith]
    | malformed d => simp [lineOk] at hl

theorem validateLoop_type_error (path : String) (w : Json) (post : List RawLine)
    (hw : validate_messages_struct w = Except.error VerdictError.typeError) :
    ∀ (pre : List RawLine) (count i : Nat), (∀ l ∈ pre, lineOk l = true) →
      validateLoop path count i (pre ++ RawLine.parsed w :: post)
        = Except.error VFailure.typeError := by
  intro pre
  induction pre with
  | nil =>
    intro count i _
    simp only [List.nil_append, validateLoop, hw]
  | cons l pre ih =>
    intro count i hpre
    have hl := hpre l (List.mem_cons_self _ _)
    have hpre' : ∀ x ∈ pre, lineOk x = true := fun x hx => hpre x (List.mem_cons_of_mem _ hx)
    cases l with
    | blank =>
      rw [List.cons_append, validateLoop, ih count (i + 1) hpre']
    | parsed u =>
      have hu : validate_messages_struct u = Except.ok () :=
        acceptable_ok u (by simpa [lineOk] using hl)
      rw [List.cons_append, validateLoop, hu]
      rw [ih (count + 1) (i + 1) hpre']
    | malformed d => simp [lineOk] at hl

theorem validateLoop_parse_error (path : String) (d : String) (post : List RawLine) :
    ∀ (pre : List RawLine) (count i : Nat), (∀ l ∈ pre, lineOk l = true) →
      validateLoop path count i (pre ++ RawLine.malformed d :: post)
        = Except.error (VFailure.parse ⟨path, i + pre.length, d⟩) := by
  intro pre
  induction pre with
  | nil =>
    intro count i _
    rw [List.nil_append, validateLoop, List.length_nil, Nat.add_zero]
  | cons l pre ih =>
    intro count i hpre
    have hl := hpre l (List.mem_cons_self _ _)
    have hpre' : ∀ x ∈ pre, lineOk x = true := fun x hx => hpre x (List.mem_cons_of_mem _ hx)
    have harith : i + 1 + pre.length = i + (pre.length + 1) := by omega
    cases l with
    | blank =>
      rw [List.cons_append, validateLoop, ih count (i + 1) hpre', List.length_cons, harith]
    | parsed u =>
      have hu : validate_messages_struct u = Except.ok () :=
        acceptable_ok u (by simpa [lineOk] using hl)
      rw [List.cons_append, validateLoop, hu]
      rw [ih (count + 1) (i + 1) hpre', List.length_cons, harith]
    | malformed d2 => simp [lineOk] at hl

theorem iterJsonlFrom_malformed (path : String) (d : String) (post : List RawLine) :
    ∀ (pre : List RawLine) (i : Nat), (∀ l ∈ pre, notMalformed l = true) →
      iterJsonlFrom path i (pre ++ RawLine.malformed d :: post)
        = Except.error ⟨path, i + pre.length, d⟩ := by
  intro pre
  induction pre with
  | nil =>
    intro i _
    rw [List.nil_append, iterJsonlFrom, List.length_nil, Nat.add_zero]
  | cons l pre ih =>
    intro i hpre
    have hpre' : ∀ x ∈ pre, notMalformed x = true :=
      fun x hx => hpre x (List.mem_cons_of_mem _ hx)
    have harith : i + 1 + pre.length = i + (pre.length + 1) := by omega
    cases l with
    | blank =>
      rw [List.cons_append, iterJsonlFrom, ih (i + 1) hpre', List.length_cons, harith]
    | parsed u =>
      rw [List.cons_append, iterJsonlFrom, ih (i + 1) hpre', List.length_cons, harith]
    | malformed d2 =>
      have hl := hpre (RawLine.malformed d2) (List.mem_cons_self _ _)
      simp [notMalformed] at hl

theorem validateLoop_ok_pos (path : String) :
    ∀ (lines : List RawLine) (count i n : Nat),
      validateLoop path count i lines = Except.ok n → 0 < n := by
  intro lines
  induction lines with
  | nil =>
    intro count i n h
    rw [validateLoop] at h
    split at h
    · cases h
    · rename_i hc
      cases h
      omega
  | cons l rest ih =>
    intro count i n h
    cases l with
    | blank => exact ih count (i + 1) n h
    | malformed d => cases h
    | parsed v =>
      rw [validateLoop] at h
      split at h
      · cases h
      · cases h
      · exact ih (count + 1) (i + 1) n h

theorem validateLoop_all_blank (path : String) :
    ∀ (lines : List RawLine) (i : Nat), (∀ l ∈ lines, isBlank l = true) →
      validateLoop path 0 i lines = Except.error (VFailure.empty path) := by
  intro lines
  induction lines with
  | nil => intro i _; rfl
  | cons l rest ih =>
    intro i hb
    have hl := hb l (List.mem_cons_self _ _)
    cases l with
    | blank => exact ih (i + 1) (fun x hx => hb x (List.mem_cons_of_mem _ hx))
    | malformed d => simp [isBlank] at hl
    | parsed v => simp [isBlank] at hl

theorem lineOk_notMalformed (l : RawLine) (h : lineOk l = true) : notMalformed l = true := by
  cases l <;> simp_all [lineOk, notMalformed]

/-- C1 counterexample: a split whose first record the validator rejects and
whose second record is valid does not complete — validate_or_raise raises
the rejection as an error carrying line 1 and the reason, instead of
recording a diagnostic and continuing to report counts. -/
theorem C1_counterexample :
    validate_or_raise "train.jsonl"
        (some [RawLine.parsed recMissingAssistant, RawLine.parsed recUserAssistant])
      = Except.error
          (VFailure.struct "train.jsonl" 1 (Reason.requiredRoleNotFound "assistant")) :=
  rfl

/-- C1 (amended): validation rejections are fatal, not recoverable — on the
first failing record validate_or_raise aborts the split: when the record
fails one of the validator's own checks it raises a ValueError carrying the
1-based line number and the reason, and when the record is a non-dict that
makes the membership test or the subscript raise, it aborts with that bare
TypeError, which carries neither file, line nor reason; either way the
split never completes, no matter what records follow. -/
theorem C1_rejection_aborts_split (path : String) (pre : List RawLine) (v : Json)
    (e : Reason) (post : List RawLine)
    (hpre : ∀ l ∈ pre, lineOk l = true)
    (hv : validate_messages_struct v = Except.error (VerdictError.valueError e)) :
    validate_or_raise path (some (pre ++ RawLine.parsed v :: post))
      = Except.error (VFailure.struct path (pre.length + 1) e)
    ∧ ∀ w : Json, validate_messages_struct w = Except.error VerdictError.typeError →
        validate_or_raise path (some (pre ++ RawLine.parsed w :: post))
          = Except.error VFailure.typeError := by
  constructor
  · have h := validateLoop_struct_error path v e post hv pre 0 1 hpre
    rw [Nat.add_comm 1 pre.length] at h
    exact h
  · intro w hw
    exact validateLoop_type_error path w post hw pre 0 1 hpre

theorem C1_rejection_aborts_split_witness :
    (∀ l ∈ [RawLine.blank, RawLine.parsed recUserAssistant], lineOk l = true)
    ∧ validate_messages_struct recMissingAssistant
        = Except.error (VerdictError.valueError (Reason.requiredRoleNotFound "assistant"))
    ∧ (validate_or_raise "data.jsonl"
          (some ([RawLine.blank, RawLine.parsed recUserAssistant]
            ++ RawLine.parsed recMissingAssistant :: [RawLine.parsed recUserAssistant]))
          = Except.error (VFailure.struct "data.jsonl"
              ([RawLine.blank, RawLine.parsed recUserAssistant].length + 1)
              (Reason.requiredRoleNotFound "assistant"))
      ∧ ∀ w : Json, validate_messages_struct w = Except.error VerdictError.typeError →
          validate_or_raise "data.jsonl"
              (some ([RawLine.blank, RawLine.parsed recUserAssistant]
                ++ RawLine.parsed w :: [RawLine.parsed recUserAssistant]))
            = Except.error VFailure.typeError)
    ∧ validate_messages_struct Json.null = Except.error VerdictError.typeError :=
  ⟨by decide, rfl,
    C1_rejection_aborts_split "data.jsonl" [RawLine.blank, RawLine.parsed recUserAssistant]
      recMissingAssistant (Reason.requiredRoleNotFound "assistant")
      [RawLine.parsed recUserAssistant] (by decide) rfl, rfl⟩

/-- C4: a malformed line is fatal for the whole split — _iter_jsonl raises a
ParseError carrying the file identity, the 1-based physical number of the
first malformed line and the underlying diagnostic, yielding nothing from
the lines after it; and validate_or_raise propagates the ParseError, so no
result is produced for the split. -/
theorem C4_parse_error_fatal (path : String) (pre : List RawLine) (d : String)
    (post : List RawLine) (hnm : ∀ l ∈ pre, notMalformed l = true) :
    _iter_jsonl path (pre ++ RawLine.malformed d :: post)
      = Except.error ⟨path, pre.length + 1, d⟩
    ∧ ((∀ l ∈ pre, lineOk l = true) →
        validate_or_raise path (some (pre ++ RawLine.malformed d :: post))
          = Except.error (VFailure.parse ⟨path, pre.length + 1, d⟩)) := by
  constructor
  · have h := iterJsonlFrom_malformed path d post pre 1 hnm
    rw [Nat.add_comm 1 pre.length] at h
    exact h
  · intro hok
    have h := validateLoop_parse_error path d post pre 0 1 hok
    rw [Nat.add_comm 1 pre.length] at h
    exact h

theorem C4_parse_error_fatal_witness :
    (∀ l ∈ [RawLine.parsed recUserAssistant, RawLine.blank], notMalformed l = true)
    ∧ (_iter_jsonl "bad.jsonl"
          ([RawLine.parsed recUserAssistant, RawLine.blank]
            ++ RawLine.malformed "unterminated" :: [RawLine.parsed recUserAssistant])
        = Except.error ⟨"bad.jsonl",
            [RawLine.parsed recUserAssistant, RawLine.blank].length + 1, "unterminated"⟩
      ∧ ((∀ l ∈ [RawLine.parsed recUserAssistant, RawLine.blank], lineOk l = true) →
          validate_or_raise "bad.jsonl"
              (some ([RawLine.parsed recUserAssistant, RawLine.blank]
                ++ RawLine.malformed "unterminated" :: [RawLine.parsed recUserAssistant]))
            = Except.error (VFailure.parse ⟨"bad.jsonl",
                [RawLine.parsed recUserAssistant, RawLine.blank].length + 1,
                "unterminated"⟩))) :=
  ⟨by decide,
    C4_parse_error_fatal "bad.jsonl" [RawLine.parsed recUserAssistant, RawLine.blank]
      "unterminated" [RawLine.parsed recUserAssistant] (by decide)⟩

/-- C5: a split with zero accepted records is fatal for this validator — on
all-blank file content (in particular an empty file), which yields zero
accepted and zero rejected records, validate_or_raise raises the
0-valid-records error naming the file; and validate_or_raise never returns
success with a zero count. -/
theorem C5_zero_accepted_fatal (path : String) (lines : List RawLine)
    (hb : ∀ l ∈ lines, isBlank l = true) :
    validate_or_raise path (some lines) = Except.error (VFailure.empty path)
    ∧ ∀ (q : String) (c : Option (List RawLine)) (n : Nat),
        validate_or_raise q c = Except.ok n → 0 < n := by
  constructor
  · exact validateLoop_all_blank path lines 1 hb
  · intro q c n h
    cases c with
    | none => simp [validate_or_raise] at h
    | some ls => exact validateLoop_ok_pos q ls 0 1 n h

theorem C5_zero_accepted_fatal_witness :
    (∀ l ∈ [RawLine.blank, RawLine.blank], isBlank l = true)
    ∧ (validate_or_raise "eval.jsonl" (some [RawLine.blank, RawLine.blank])
        = Except.error (VFailure.empty "eval.jsonl")
      ∧ ∀ (q : String) (c : Option (List RawLine)) (n : Nat),
          validate_or_raise q c = Except.ok n → 0 < n) :=
  ⟨by decide, C5_zero_accepted_fatal "eval.jsonl" [RawLine.blank, RawLine.blank] (by decide)⟩

theorem iterJsonlFrom_ok_eq (path : String) :
    ∀ (lines : List RawLine) (i : Nat) (pairs : List (Nat × Json)),
      iterJsonlFrom path i lines = Except.ok pairs →
      pairs = (numberLinesFrom i lines).filterMap emitLine := by
  intro lines
  induction lines with
  | nil =>
    intro i pairs h
    cases h
    rfl
  | cons l rest ih =>
    intro i pairs h
    cases l with
    | blank =>
      rw [iterJsonlFrom] at h
      rw [numberLinesFrom, List.filterMap_cons]
      exact ih (i + 1) pairs h
    | malformed d => cases h
    | parsed v =>
      rw [iterJsonlFrom] at h
      split at h
      · rename_i pairs0 heq
        cases h
        rw [numberLinesFrom, List.filterMap_cons]
        rw [show emitLine (i, RawLine.parsed v) = some (i, v) from rfl]
        rw [← ih (i + 1) pairs0 heq]
      · cases h

theorem emittedFrom_bounds :
    ∀ (lines : List RawLine) (i : Nat) (p : Nat × Json),
      p ∈ (numberLinesFrom i lines).filterMap emitLine → i ≤ p.1 := by
  intro lines
  induction lines with
  | nil =>
    intro i p hp
    simp [numberLinesFrom] at hp
  | cons l rest ih =>
    intro i p hp
    rw [numberLinesFrom, List.filterMap_cons] at hp
    cases l with
    | blank => exact Nat.le_of_succ_le (ih (i + 1) p hp)
    | malformed d => exact Nat.le_of_succ_le (ih (i + 1) p hp)
    | parsed v =>
      rw [show emitLine (i, RawLine.parsed v) = some (i, v) from rfl] at hp
      rcases List.mem_cons.mp hp with h1 | h1
      · rw [h1]
      · exact Nat.le_of_succ_le (ih (i + 1) p h1)

theorem emittedFrom_pairwise :
    ∀ (lines : List RawLine) (i : Nat),
      List.Pairwise (fun p q => p.1 < q.1) ((numberLinesFrom i lines).filterMap emitLine) := by
  intro lines
  induction lines with
  | nil =>
    intro i
    simp [numberLinesFrom]
  | cons l rest ih =>
    intro i
    rw [numberLinesFrom, List.filterMap_cons]
    cases l with
    | blank => exact ih (i + 1)
    | malformed d => exact ih (i + 1)
    | parsed v =>
      rw [show emitLine (i, RawLine.parsed v) = some (i, v) from rfl]
      exact List.Pairwise.cons (fun q hq => emittedFrom_bounds rest (i + 1) q hq) (ih (i + 1))

/-- C7: whenever the Reader succeeds, the pairs it emits are exactly the
parsed lines with their 1-based physical numbers — blank lines emit no
pair, no record and no error but still advance the numbering — so every
emitted line number is nonzero and the numbers are strictly increasing in
emission order. -/
theorem C7_reader_line_numbers (path : String) (lines : List RawLine)
    (pairs : List (Nat × Json)) (h : _iter_jsonl path lines = Except.ok pairs) :
    pairs = emittedPairs lines
    ∧ (∀ p ∈ pairs, 0 < p.1)
    ∧ List.Pairwise (fun p q => p.1 < q.1) pairs := by
  have he := iterJsonlFrom_ok_eq path lines 1 pairs h
  refine ⟨he, ?_, ?_⟩
  · intro p hp
    rw [he] at hp
    exact Nat.lt_of_lt_of_le Nat.zero_lt_one (emittedFrom_bounds lines 1 p hp)
  · rw [he]
    exact emittedFrom_pairwise lines 1

theorem C7_reader_line_numbers_witness :
    _iter_jsonl "in.jsonl"
        [RawLine.blank, RawLine.parsed recUserAssistant, RawLine.blank,
          RawLine.parsed recMissingAssistant]
      = Except.ok [(2, recUserAssistant), (4, recMissingAssistant)]
    ∧ ([(2, recUserAssistant), (4, recMissingAssistant)]
        = emittedPairs [RawLine.blank, RawLine.parsed recUserAssistant, RawLine.blank,
            RawLine.parsed recMissingAssistant]
      ∧ (∀ p ∈ [(2, recUserAssistant), (4, recMissingAssistant)], 0 < p.1)
      ∧ List.Pairwise (fun p q => p.1 < q.1)
          [(2, recUserAssistant), (4, recMissingAssistant)]) :=
  ⟨rfl,
    C7_reader_line_numbers "in.jsonl"
      [RawLine.blank, RawLine.parsed recUserAssistant, RawLine.blank,
        RawLine.parsed recMissingAssistant]
      [(2, recUserAssistant), (4, recMissingAssistant)] rfl⟩

theorem validateLoop_path_erased (p q : String) :
    ∀ (lines : List RawLine) (count i : Nat),
      outcomeKind (validateLoop p count i lines)
        = outcomeKind (validateLoop q count i lines) := by
  intro lines
  induction lines with
  | nil =>
    intro count i
    by_cases hc : count = 0 <;> simp [validateLoop, hc, outcomeKind]
  | cons l rest ih =>
    intro count i
    cases l with
    | blank => exact ih count (i + 1)
    | malformed d => rfl
    | parsed v =>
      rw [validateLoop, validateLoop]
      cases hv : validate_messages_struct v with
      | error r => cases r <;> rfl
      | ok u => exact ih (count + 1) (i + 1)

/-- C9: the result of validate_or_raise does not depend on the file name or
its extension at all (up to the file identity embedded in the raised
message, which outcomeKind erases): identical content under any two paths
— one with a recognized .jsonl or .json extension, one with any other —
yields the same acceptance and the same errors. -/
theorem C9_extension_independent (p q : String) (lines : List RawLine) :
    outcomeKind (validate_or_raise p (some lines))
      = outcomeKind (validate_or_raise q (some lines)) :=
  validateLoop_path_erased p q lines 0 1

theorem ok_acceptable (rec : Json) (h : validate_messages_struct rec = Except.ok ()) :
    acceptable rec = true := by
  unfold acceptable
  rw [h]

theorem processPairs_none_accepted :
    ∀ (pairs : List (Nat × Json)) (acc : Nat),
      (processPairs none acc pairs).accepted = (pairs.map Prod.snd).filter acceptable := by
  intro pairs
  induction pairs with
  | nil => intro acc; rfl
  | cons p rest ih =>
    intro acc
    obtain ⟨i, rec⟩ := p
    cases hv : validate_messages_struct rec with
    | ok u =>
      cases u
      simp [processPairs, capReached, hv, List.filter_cons, ok_acceptable rec hv, ih]
    | error e =>
      have ha : acceptable rec = false := by unfold acceptable; rw [hv]
      simp [processPairs, capReached, hv, List.filter_cons, ha, ih]

theorem processPairs_cap_accepted :
    ∀ (pairs : List (Nat × Json)) (k acc : Nat),
      (processPairs (some k) acc pairs).accepted
        = ((pairs.map Prod.snd).filter acceptable).take (k - acc) := by
  intro pairs
  induction pairs with
  | nil => intro k acc; simp [processPairs]
  | cons p rest ih =>
    intro k acc
    obtain ⟨i, rec⟩ := p
    by_cases hk : k ≤ acc
    · have h0 : k - acc = 0 := Nat.sub_eq_zero_of_le hk
      simp [processPairs, capReached, hk, h0]
    · have hcap : capReached (some k) acc = false := by
        simp [capReached]
        omega
      cases hv : validate_messages_struct rec with
      | ok u =>
        cases u
        have hs : k - acc = (k - (acc + 1)) + 1 := by omega
        simp [processPairs, hcap, hv, List.filter_cons, ok_acceptable rec hv, ih, hs]
      | error e =>
        have ha : acceptable rec = false := by unfold acceptable; rw [hv]
        simp [processPairs, hcap, hv, List.filter_cons, ha, ih]

theorem processPairs_cap_stop (extra : List (Nat × Json)) :
    ∀ (pairs : List (Nat × Json)) (k acc : Nat),
      k ≤ acc + ((pairs.map Prod.snd).filter acceptable).length →
      processPairs (some k) acc (pairs ++ extra) = processPairs (some k) acc pairs := by
  intro pairs
  induction pairs with
  | nil =>
    intro k acc hk
    rw [List.map_nil, List.filter_nil, List.length_nil, Nat.add_zero] at hk
    rw [List.nil_append]
    cases extra with
    | nil => rfl
    | cons q qs =>
      obtain ⟨j, rec⟩ := q
      simp [processPairs, capReached, hk]
  | cons p rest ih =>
    intro k acc hk
    obtain ⟨i, rec⟩ := p
    by_cases hka : k ≤ acc
    · simp [List.cons_append, processPairs, capReached, hka]
    · have hcap : capReached (some k) acc = false := by
        simp [capReached]
        omega
      cases hv : validate_messages_struct rec with
      | ok u =>
        cases u
        have ha : acceptable rec = true := ok_acceptable rec hv
        rw [List.map_cons, List.filter_cons, ha] at hk
        simp only [if_true] at hk
        rw [List.length_cons] at hk
        simp [List.cons_append, processPairs, hcap, hv, ih k (acc + 1) (by omega)]
      | error e =>
        have ha : acceptable rec = false := by unfold acceptable; rw [hv]
        rw [List.map_cons, List.filter_cons, ha] at hk
        simp only [Bool.false_eq_true, if_false] at hk
        simp [List.cons_append, processPairs, hcap, hv, ih k acc hk]

/-- C2 (spec-modelled Split Processor): with a cap k and at least k
acceptable records in the input, the split keeps exactly the first k
acceptable records in original line order, its accepted count is exactly k,
and reading stops once the cap is reached — lines after that point do not
change the result; with no cap there is no limit: every acceptable record
is kept. -/
theorem C2_cap_property (k : Nat) (pairs extra : List (Nat × Json))
    (hk : k ≤ countAcceptable pairs) :
    (processSplit (some k) pairs).accepted
      = ((pairs.map Prod.snd).filter acceptable).take k
    ∧ (processSplit (some k) pairs).accepted.length = k
    ∧ processSplit (some k) (pairs ++ extra) = processSplit (some k) pairs
    ∧ ∀ ps : List (Nat × Json),
        (processSplit none ps).accepted = (ps.map Prod.snd).filter acceptable := by
  have hacc : (processSplit (some k) pairs).accepted
      = ((pairs.map Prod.snd).filter acceptable).take k := by
    have h := processPairs_cap_accepted pairs k 0
    rw [Nat.sub_zero] at h
    exact h
  refine ⟨hacc, ?_, ?_, ?_⟩
  · rw [hacc, List.length_take]
    unfold countAcceptable at hk
    omega
  · exact processPairs_cap_stop extra pairs k 0 (by unfold countAcceptable at hk; omega)
  · intro ps
    exact processPairs_none_accepted ps 0

theorem C2_cap_property_witness :
    1 ≤ countAcceptable
        [(1, recMissingAssistant), (2, recUserAssistant), (3, recUserAssistant)]
    ∧ ((processSplit (some 1)
          [(1, recMissingAssistant), (2, recUserAssistant), (3, recUserAssistant)]).accepted
        = ((([(1, recMissingAssistant), (2, recUserAssistant),
              (3, recUserAssistant)]).map Prod.snd).filter acceptable).take 1
      ∧ (processSplit (some 1)
          [(1, recMissingAssistant), (2, recUserAssistant), (3, recUserAssistant)]).accepted.length = 1
      ∧ processSplit (some 1)
          ([(1, recMissingAssistant), (2, recUserAssistant), (3, recUserAssistant)]
            ++ [(4, recUserAssistant)])
        = processSplit (some 1)
            [(1, recMissingAssistant), (2, recUserAssistant), (3, recUserAssistant)]
      ∧ ∀ ps : List (Nat × Json),
          (processSplit none ps).accepted = (ps.map Prod.snd).filter acceptable) :=
  ⟨by decide,
    C2_cap_property 1
      [(1, recMissingAssistant), (2, recUserAssistant), (3, recUserAssistant)]
      [(4, recUserAssistant)] (by decide)⟩

theorem processPairs_accepted_acceptable :
    ∀ (pairs : List (Nat × Json)) (cap : Option Nat) (acc : Nat) (r : Json),
      r ∈ (processPairs cap acc pairs).accepted → acceptable r = true := by
  intro pairs
  induction pairs with
  | nil =>
    intro cap acc r hr
    cases hr
  | cons p rest ih =>
    intro cap acc r hr
    obtain ⟨i, rec⟩ := p
    rw [processPairs] at hr
    by_cases hc : capReached cap acc = true
    · rw [if_pos hc] at hr
      cases hr
    · rw [if_neg hc] at hr
      cases hv : validate_messages_struct rec with
      | ok u =>
        cases u
        rw [hv] at hr
        rcases List.mem_cons.mp hr with h1 | h1
        · rw [h1]
          exact ok_acceptable rec hv
        · exact ih cap (acc + 1) r h1
      | error e =>
        rw [hv] at hr
        exact ih cap acc r hr

theorem processPairs_all_acceptable :
    ∀ (recs : List Json) (i acc : Nat), (∀ r ∈ recs, acceptable r = true) →
      processPairs none acc (numberFrom i recs) = ⟨recs, []⟩ := by
  intro recs
  induction recs with
  | nil => intro i acc _; rfl
  | cons r rest ih =>
    intro i acc hall
    have hr : acceptable r = true := hall r (List.mem_cons_self _ _)
    have hv : validate_messages_struct r = Except.ok () := acceptable_ok r hr
    rw [numberFrom, processPairs]
    rw [show capReached none acc = false from rfl]
    rw [if_neg (by simp)]
    rw [hv]
    rw [ih (i + 1) (acc + 1) (fun x hx => hall x (List.mem_cons_of_mem _ hx))]

/-- C8: accepted records are always re-acceptable — every record a
processed split accepts passes the validator, so re-running the accepted
output (as the Writer would lay it out, one record per line) through the
same validator strategy accepts everything and yields zero rejections. -/
theorem C8_idempotence (cap : Option Nat) (pairs : List (Nat × Json)) :
    (processSplit none (numberFrom 1 (processSplit cap pairs).accepted)).accepted
      = (processSplit cap pairs).accepted
    ∧ (processSplit none
        (numberFrom 1 (processSplit cap pairs).accepted)).rejectedDiags = [] := by
  have h : processSplit none (numberFrom 1 (processSplit cap pairs).accepted)
      = ⟨(processSplit cap pairs).accepted, []⟩ :=
    processPairs_all_acceptable (processSplit cap pairs).accepted 1 0
      (fun r hr => processPairs_accepted_acceptable pairs cap 0 r hr)
  rw [h]
  exact ⟨rfl, rfl⟩

theorem checkMessage_equiv (m m' : Json) (h : mEquiv m m') :
    checkMessage m = checkMessage m' := by
  obtain ⟨h1, h2, h3⟩ := h
  unfold checkMessage
  rw [h1, h2, h3]

theorem checkMessages_equiv (ms ms' : List Json) (h : List.Forall₂ mEquiv ms ms') :
    checkMessages ms = checkMessages ms' := by
  induction h with
  | nil => rfl
  | cons hab hrest ih =>
    rw [checkMessages, checkMessages, checkMessage_equiv _ _ hab, ih]

theorem checkMessages_append_ok (ms ms' : List Json) (p p' : List String)
    (h : checkMessages ms = Except.ok p) (h' : checkMessages ms' = Except.ok p') :
    checkMessages (ms ++ ms') = Except.ok (p ++ p') := by
  induction ms generalizing p with
  | nil =>
    cases h
    rw [List.nil_append, List.nil_append]
    exact h'
  | cons m rest ih =>
    rw [checkMessages] at h
    split at h
    · cases h
    · rename_i r hr
      split at h
      · rename_i roles hroles
        cases h
        rw [List.cons_append, checkMessages, hr, ih roles hroles]
        rfl
      · cases h

/-- C10: the verdict of the structural validator depends only on the
messages entry and, inside it, only on each message being an object and on
its role and content entries — a record equal on those points to an
accepted one, with arbitrary extra top-level keys, arbitrary extra keys
inside messages, and extra appended messages that are objects with string
role (of any value, also outside the required set) and string content, is
still accepted. -/
theorem C10_verdict_depends_only_on_messages (rec rec' : Json) (ms ms' extra : List Json)
    (hrec : Json.lookup rec "messages" = some (Json.arr ms))
    (hacc : validate_messages_struct rec = Except.ok ())
    (hms : List.Forall₂ mEquiv ms ms')
    (hex : ∀ m ∈ extra, ∃ r, checkMessage m = Except.ok r)
    (hrec' : Json.lookup rec' "messages" = some (Json.arr (ms' ++ extra))) :
    validate_messages_struct rec' = Except.ok () := by
  obtain ⟨fields, rfl⟩ := lookup_some_obj rec "messages" (Json.arr ms) hrec
  obtain ⟨fields', rfl⟩ := lookup_some_obj rec' "messages" (Json.arr (ms' ++ extra)) hrec'
  have hcr : checkRecord fields = Except.ok () := (validate_obj_ok fields).mp hacc
  refine (validate_obj_ok fields').mpr ?_
  unfold checkRecord at hcr ⊢
  rw [hrec] at hcr
  rw [hrec']
  dsimp only at hcr ⊢
  cases hcm : checkMessages ms with
  | error e =>
    rw [hcm] at hcr
    cases hcr
  | ok present =>
    rw [hcm] at hcr
    dsimp only at hcr
    have hms2 : checkMessages ms' = Except.ok present := by
      rw [← checkMessages_equiv ms ms' hms]
      exact hcm
    obtain ⟨pex, hpex⟩ := checkMessages_total extra hex
    rw [checkMessages_append_ok ms' extra present pex hms2 hpex]
    dsimp only
    refine (checkRequiredRoles_ok_iff REQUIRED_ROLES (present ++ pex)).mpr ?_
    intro r hr
    exact List.mem_append_left pex
      ((checkRequiredRoles_ok_iff REQUIRED_ROLES present).mp hcr r hr)

theorem C10_verdict_depends_only_on_messages_witness :
    validate_messages_struct recUserAssistant = Except.ok ()
    ∧ validate_messages_struct recAugmented = Except.ok () :=
  ⟨rfl,
    C10_verdict_depends_only_on_messages recUserAssistant recAugmented
      [msgUser, msgAssistant] [msgUserExtra, msgAssistant] [msgSystem]
      rfl rfl
      (List.Forall₂.cons ⟨rfl, rfl, rfl⟩
        (List.Forall₂.cons ⟨rfl, rfl, rfl⟩ List.Forall₂.nil))
      (by
        intro m hm
        rw [List.mem_singleton] at hm
        subst hm
        exact ⟨"system", rfl⟩)
      rfl⟩
